import Mathlib

/-!
Shallow embedding of `rss2irc.py` (cache-scrubbing and deduplication engine).
Python dicts are modelled as insertion-ordered association lists; dynamically
typed cache values are modelled by `PyVal`; `int(v)` is modelled by `pyIntOf`,
which raises `ValueError` on a non-numeric string and `TypeError` on `None`
(matching CPython).  Keys are `Option String` because `parse_news` may record
an entry under a `None` link.
-/

/-- A dynamically typed value stored in the pickle cache. -/
inductive PyVal where
  | int (n : Int)
  | str (s : String)
  | pyNone
deriving DecidableEq

/-- The two exception classes relevant to `int(v)`. -/
inductive PyErr where
  | valueError
  | typeError
deriving DecidableEq

/-- Accumulate the value of a run of decimal digits; `none` on a non-digit. -/
def digitsVal : List Char → Nat → Option Nat
  | [], acc => some acc
  | c :: rest, acc =>
      if c.isDigit then digitsVal rest (acc * 10 + (c.toNat - 48)) else none

/-- Model of Python `int(s)` on a string: optional minus sign then digits. -/
def pyParseInt (s : String) : Option Int :=
  match s.data with
  | [] => none
  | '-' :: rest =>
      match rest with
      | [] => none
      | _ => (digitsVal rest 0).map (fun n => -(n : Int))
  | cs => (digitsVal cs 0).map (fun n => (n : Int))

/-- Model of Python `int(v)` on a dynamically typed value: an `int` passes
through, a string is parsed (`ValueError` on failure), `None` raises
`TypeError`. -/
def pyIntOf : PyVal → Except PyErr Int
  | .int n => .ok n
  | .str s =>
      match pyParseInt s with
      | some n => .ok n
      | none => .error .valueError
  | .pyNone => .error .typeError

/-- Dict keys: entry URLs, possibly `None`. -/
abbrev Url := Option String

/-- `(title, category)` attribute pair of a feed entry. -/
abbrev Attr := Option String × Option String

/-- `k in d` on the association-list model of a Python dict. -/
def hasKey : List (Url × α) → Url → Bool
  | [], _ => false
  | (k', _) :: rest, k => if k' = k then true else hasKey rest k

/-- `d.get(k)` on the association-list model of a Python dict. -/
def dictGet : List (Url × α) → Url → Option α
  | [], _ => none
  | (k', v) :: rest, k => if k' = k then some v else dictGet rest k

/-- `d[k] = v`: replace in place if the key is present, else append
(insertion order, as for a Python dict). -/
def dictSet : List (Url × α) → Url → α → List (Url × α)
  | [], k, v => [(k, v)]
  | (k', v') :: rest, k, v =>
      if k' = k then (k', v) :: rest
      else (k', v') :: dictSet rest k v

/-- `scrub_cache` (lines 190-209): for each record try `int(value)`; a
`ValueError` removes the record, a `TypeError` propagates out of the pass;
a record whose expiration is strictly below `now` is removed. -/
def scrub_cache (now : Int) : List (Url × PyVal) → Except PyErr (List (Url × PyVal))
  | [] => .ok []
  | (k, v) :: rest =>
      match pyIntOf v with
      | .error .valueError => scrub_cache now rest
      | .error .typeError => .error .typeError
      | .ok e =>
          if e < now then scrub_cache now rest
          else
            match scrub_cache now rest with
            | .ok r => .ok ((k, v) :: r)
            | .error er => .error er

/-- A record survives a scrub at `now` iff its value is an integer (or an
integer-parsing string) not below `now`. -/
def keepRecord (now : Int) (v : PyVal) : Bool :=
  match pyIntOf v with
  | .ok e => decide (now ≤ e)
  | .error _ => false

theorem scrub_ok_filter (now : Int) (c r : List (Url × PyVal))
    (h : scrub_cache now c = .ok r) :
    r = c.filter (fun kv => keepRecord now kv.2) := by
  induction c generalizing r with
  | nil =>
      simp only [scrub_cache, Except.ok.injEq] at h
      simp [← h]
  | cons kv rest ih =>
      obtain ⟨k, v⟩ := kv
      rcases hv : pyIntOf v with er | e
      · cases er with
        | valueError =>
            rw [scrub_cache, hv] at h
            have : keepRecord now v = false := by simp [keepRecord, hv]
            simp [List.filter, this, ih r h]
        | typeError =>
            rw [scrub_cache, hv] at h
            exact absurd h (by simp)
      · by_cases he : e < now
        · rw [scrub_cache, hv] at h
          simp only [he, if_true] at h
          have : keepRecord now v = false := by
            simp [keepRecord, hv, not_le.mpr he]
          simp [List.filter, this, ih r h]
        · rw [scrub_cache, hv] at h
          simp only [he, if_false] at h
          rcases hr : scrub_cache now rest with er' | r'
          · rw [hr] at h
            exact absurd h (by simp)
          · rw [hr] at h
            simp only [Except.ok.injEq] at h
            have : keepRecord now v = true := by
              simp [keepRecord, hv, not_lt.mp he]
            simp [List.filter, this, ← h, ih r' hr]

theorem scrub_of_all_keep (now : Int) (r : List (Url × PyVal))
    (h : ∀ kv ∈ r, keepRecord now kv.2 = true) :
    scrub_cache now r = .ok r := by
  induction r with
  | nil => simp [scrub_cache]
  | cons kv rest ih =>
      obtain ⟨k, v⟩ := kv
      have hk : keepRecord now v = true := h (k, v) (by simp)
      have hrest : scrub_cache now rest = .ok rest :=
        ih (fun kv hm => h kv (by simp [hm]))
      rcases hv : pyIntOf v with er | e
      · exfalso
        simp [keepRecord, hv] at hk
      · have he : ¬ e < now := by
          simp only [keepRecord, hv] at hk
          exact not_lt.mpr (of_decide_eq_true hk)
        rw [scrub_cache, hv]
        simp [he, hrest]

theorem scrub_ok_self (now : Int) (c r : List (Url × PyVal))
    (h : scrub_cache now c = .ok r) :
    scrub_cache now r = .ok r := by
  have hr := scrub_ok_filter now c r h
  apply scrub_of_all_keep
  intro kv hm
  rw [hr] at hm
  exact (List.mem_filter.mp hm).2

/-- C2: for every record whose value is integer-interpretable, a completed
scrub at time `now` retains the record iff its expiration is not strictly
below `now` (strict less-than removal semantics). -/
theorem scrub_boundary (now : Int) (c r : List (Url × PyVal)) (k : Url)
    (v : PyVal) (e : Int) (h : scrub_cache now c = .ok r)
    (hv : pyIntOf v = .ok e) :
    (k, v) ∈ r ↔ ((k, v) ∈ c ∧ ¬ (e < now)) := by
  rw [scrub_ok_filter now c r h, List.mem_filter]
  have : keepRecord now v = decide (now ≤ e) := by simp [keepRecord, hv]
  rw [this]
  constructor
  · rintro ⟨hm, hd⟩
    exact ⟨hm, not_lt.mpr (of_decide_eq_true hd)⟩
  · rintro ⟨hm, hd⟩
    exact ⟨hm, decide_eq_true (not_lt.mp hd)⟩

/-- C2 witness: at `now = 10`, the record with expiration `10` is retained and
the record with expiration `9` is removed. -/
theorem scrub_boundary_witness :
    (((some "a" : Url), PyVal.int 10) ∈ [((some "a" : Url), PyVal.int 10)] ↔
      (((some "a" : Url), PyVal.int 10) ∈
          [((some "a" : Url), PyVal.int 10), ((some "b" : Url), PyVal.int 9)] ∧
        ¬ ((10 : Int) < 10))) ∧
    (((some "b" : Url), PyVal.int 9) ∈ [((some "a" : Url), PyVal.int 10)] ↔
      (((some "b" : Url), PyVal.int 9) ∈
          [((some "a" : Url), PyVal.int 10), ((some "b" : Url), PyVal.int 9)] ∧
        ¬ ((9 : Int) < 10))) :=
  ⟨scrub_boundary 10 [((some "a" : Url), PyVal.int 10), ((some "b" : Url), PyVal.int 9)]
      [((some "a" : Url), PyVal.int 10)] (some "a") (PyVal.int 10) 10 (by rfl) (by rfl),
    scrub_boundary 10 [((some "a" : Url), PyVal.int 10), ((some "b" : Url), PyVal.int 9)]
      [((some "a" : Url), PyVal.int 10)] (some "b") (PyVal.int 9) 9 (by rfl) (by rfl)⟩

/-- C3 counterexample: a snapshot with one well-formed record and one record
whose value is `None` (non-numeric, but not a string) does not scrub to the
well-formed record: `int(None)` raises `TypeError`, which `scrub_cache`
does not catch (it only catches `ValueError`), so the pass raises. -/
theorem scrub_corrupt_cex :
    scrub_cache 50 [((some "a" : Url), PyVal.int 100), ((some "b" : Url), PyVal.pyNone)]
      ≠ .ok [((some "a" : Url), PyVal.int 100)] := by
  have h1 : scrub_cache 50
      [((some "a" : Url), PyVal.int 100), ((some "b" : Url), PyVal.pyNone)]
      = .error PyErr.typeError := by rfl
  rw [h1]
  intro h
  exact Except.noConfusion h

/-- C3 amended: corrupt-record isolation holds when the malformed value is a
non-numeric string (`int` raises `ValueError`, which is caught): a snapshot
with one well-formed record and one non-numeric-string record scrubs to
exactly the well-formed record. -/
theorem scrub_badstring_isolated (now : Int) (k1 k2 : Url) (e : Int) (s : String)
    (hs : pyParseInt s = none) (he : ¬ e < now) :
    scrub_cache now [(k1, PyVal.int e), (k2, PyVal.str s)] = .ok [(k1, PyVal.int e)] := by
  rw [scrub_cache, scrub_cache, scrub_cache]
  simp [pyIntOf, hs, he]

/-- C3 amended witness: at `now = 10`, the snapshot with `("a", 100)` and
`("b", "oops")` scrubs to just `("a", 100)`. -/
theorem scrub_badstring_isolated_witness :
    scrub_cache 10 [((some "a" : Url), PyVal.int 100), ((some "b" : Url), PyVal.str "oops")]
      = .ok [((some "a" : Url), PyVal.int 100)] :=
  scrub_badstring_isolated 10 (some "a") (some "b") 100 "oops" (by decide) (by decide)

/-- C4: scrubbing is idempotent — scrubbing the result of a scrub at the same
`now` (sequenced through the exception monad) is the scrub itself. -/
theorem scrub_idempotent (now : Int) (c : List (Url × PyVal)) :
    (scrub_cache now c).bind (scrub_cache now) = scrub_cache now c := by
  rcases h : scrub_cache now c with er | r
  · rfl
  · simpa [Except.bind] using scrub_ok_self now c r h

/-- The reconciliation loop of `main` (lines 96-100): iterate over the parsed
`news`; a key already in `cache` has its expiration refreshed to `exp` and is
popped from `news`; returns (surviving news, refreshed cache). -/
def reconcile (exp : Int) :
    List (Url × Attr) → List (Url × PyVal) → List (Url × Attr) × List (Url × PyVal)
  | [], cache => ([], cache)
  | (k, a) :: rest, cache =>
      if hasKey cache k then reconcile exp rest (dictSet cache k (.int exp))
      else
        let r := reconcile exp rest cache
        ((k, a) :: r.1, r.2)

/-- The cache-commit loop of `main` (lines 105-107): every key still in `news`
after the emission step gets a cache record with expiration `exp`. -/
def commitNew (exp : Int) : List (Url × Attr) → List (Url × PyVal) → List (Url × PyVal)
  | [], cache => cache
  | (k, _) :: rest, cache => commitNew exp rest (dictSet cache k (.int exp))

/-- Python truthiness of an optional string (`if handle:`). -/
def truthyStr : Option String → Bool
  | none => false
  | some s => decide (s ≠ "")

/-- Python `'%s' % x` for an optional string: `None` prints as `"None"`. -/
def pyStrOf : Option String → String
  | none => "None"
  | some s => s

/-- `format_message` (lines 21-38): with a truthy handle the line is
`[<tag>] <title> | <url>\n`, where the tag appends `-<category>` only for a
truthy category; without a handle the line is `<url>\n`. -/
def format_message (url : Url) (msg_attrs : Attr) (handle : Option String) : String :=
  if truthyStr handle then
    let tag :=
      if truthyStr msg_attrs.2 then pyStrOf handle ++ "-" ++ pyStrOf msg_attrs.2
      else pyStrOf handle
    "[" ++ tag ++ "] " ++ pyStrOf msg_attrs.1 ++ " | " ++ pyStrOf url ++ "\n"
  else
    pyStrOf url ++ "\n"

/-- `write_data` (lines 230-254): write each entry's formatted line; a write
that stalls past the alarm raises `ValueError`, which pops the entry from the
shared `data` dict.  `stalls` says which entries stall.  Returns the lines
actually written and the entries remaining in `data`. -/
def write_data (stalls : Url → Bool) (handle : Option String) :
    List (Url × Attr) → List String × List (Url × Attr)
  | [] => ([], [])
  | (url, attrs) :: rest =>
      let r := write_data stalls handle rest
      if stalls url then r
      else (format_message url attrs handle :: r.1, (url, attrs) :: r.2)

/-- Result of one run of the post-scrub part of `main` (lines 96-109). -/
structure RunResult where
  written : List String
  finalCache : List (Url × PyVal)
deriving DecidableEq

/-- The post-scrub part of `main` (lines 96-109): reconcile `news` against the
scrubbed `cache`, write the surviving news unless `cache_init` is set (the
write may pop stalled entries from `news`), then give every key still in
`news` a cache record expiring at `now + ttl`. -/
def mainCore (news : List (Url × Attr)) (cache : List (Url × PyVal))
    (now ttl : Int) (cache_init : Bool) (handle : Option String)
    (stalls : Url → Bool) : RunResult :=
  let r := reconcile (now + ttl) news cache
  let w := if cache_init then ([], r.1) else write_data stalls handle r.1
  { written := w.1, finalCache := commitNew (now + ttl) w.2 r.2 }

theorem dictGet_dictSet_self (d : List (Url × α)) (k : Url) (v : α) :
    dictGet (dictSet d k v) k = some v := by
  induction d with
  | nil => simp [dictSet, dictGet]
  | cons kv rest ih =>
      obtain ⟨k', v'⟩ := kv
      by_cases hk : k' = k
      · simp [dictSet, dictGet, hk]
      · simp [dictSet, dictGet, hk, ih]

theorem dictGet_dictSet_ne (d : List (Url × α)) (k k' : Url) (v : α)
    (h : k ≠ k') : dictGet (dictSet d k v) k' = dictGet d k' := by
  induction d with
  | nil => simp [dictSet, dictGet, h]
  | cons kv rest ih =>
      obtain ⟨k1, v1⟩ := kv
      by_cases hk : k1 = k
      · subst hk
        simp [dictSet, dictGet, h]
      · by_cases hk' : k1 = k'
        · subst hk'
          simp [dictSet, dictGet, hk]
        · simp [dictSet, dictGet, hk, hk', ih]

theorem hasKey_dictSet_of_hasKey (d : List (Url × α)) (k k' : Url) (v : α)
    (h : hasKey d k = true) :
    hasKey (dictSet d k v) k' = hasKey d k' := by
  induction d with
  | nil => simp [hasKey] at h
  | cons kv rest ih =>
      obtain ⟨k1, v1⟩ := kv
      by_cases hk : k1 = k
      · simp [dictSet, hasKey, hk]
      · rw [hasKey, if_neg hk] at h
        simp [dictSet, hasKey, hk, ih h]

theorem hasKey_of_mem (d : List (Url × α)) (k : Url) (v : α)
    (h : (k, v) ∈ d) : hasKey d k = true := by
  induction d with
  | nil => simp at h
  | cons kv rest ih =>
      obtain ⟨k1, v1⟩ := kv
      rcases List.mem_cons.mp h with h1 | h1
      · rw [Prod.mk.injEq] at h1
        simp [hasKey, h1.1]
      · by_cases hk : k1 = k
        · simp [hasKey, hk]
        · simp [hasKey, hk, ih h1]

theorem dictGet_eq_none_of_not_hasKey (d : List (Url × α)) (k : Url)
    (h : hasKey d k = false) : dictGet d k = none := by
  induction d with
  | nil => simp [dictGet]
  | cons kv rest ih =>
      obtain ⟨k1, v1⟩ := kv
      by_cases hk : k1 = k
      · simp [hasKey, hk] at h
      · rw [hasKey, if_neg hk] at h
        simp [dictGet, hk, ih h]

theorem hasKey_iff_exists (d : List (Url × α)) (k : Url) :
    hasKey d k = true ↔ ∃ v, (k, v) ∈ d := by
  constructor
  · intro h
    induction d with
    | nil => simp [hasKey] at h
    | cons kv rest ih =>
        obtain ⟨k1, v1⟩ := kv
        by_cases hk : k1 = k
        · exact ⟨v1, by simp [hk]⟩
        · rw [hasKey, if_neg hk] at h
          obtain ⟨v, hv⟩ := ih h
          exact ⟨v, by simp [hv]⟩
  · rintro ⟨v, hv⟩
    exact hasKey_of_mem d k v hv

theorem reconcile_fst (exp : Int) (news : List (Url × Attr))
    (cache : List (Url × PyVal)) :
    (reconcile exp news cache).1 = news.filter (fun kv => ! hasKey cache kv.1) := by
  induction news generalizing cache with
  | nil => simp [reconcile]
  | cons kv rest ih =>
      obtain ⟨k, a⟩ := kv
      by_cases hk : hasKey cache k = true
      · rw [reconcile, if_pos hk]
        rw [ih (dictSet cache k (.int exp))]
        have hfilter : ∀ kv : Url × Attr,
            (! hasKey (dictSet cache k (PyVal.int exp)) kv.1) = (! hasKey cache kv.1) := by
          intro kv
          rw [hasKey_dictSet_of_hasKey cache k kv.1 (PyVal.int exp) hk]
        simp [List.filter, hk, hfilter]
      · rw [reconcile, if_neg hk]
        simp only [Bool.not_eq_true] at hk
        simp [List.filter, hk, ih cache]

theorem reconcile_snd_get (exp : Int) (news : List (Url × Attr))
    (cache : List (Url × PyVal)) (k : Url) :
    dictGet (reconcile exp news cache).2 k =
      if hasKey news k && hasKey cache k then some (PyVal.int exp)
      else dictGet cache k := by
  induction news generalizing cache with
  | nil => simp [reconcile, hasKey]
  | cons kv rest ih =>
      obtain ⟨k1, a⟩ := kv
      by_cases hk1 : hasKey cache k1 = true
      · rw [reconcile, if_pos hk1]
        rw [ih (dictSet cache k1 (.int exp))]
        by_cases hk : k1 = k
        · subst hk
          rw [hasKey_dictSet_of_hasKey cache k1 k1 (PyVal.int exp) hk1]
          simp [hasKey, hk1, dictGet_dictSet_self]
        · rw [hasKey_dictSet_of_hasKey cache k1 k (PyVal.int exp) hk1]
          rw [dictGet_dictSet_ne cache k1 k (PyVal.int exp) hk]
          simp [hasKey, hk]
      · rw [reconcile, if_neg hk1]
        rw [ih cache]
        by_cases hk : k1 = k
        · subst hk
          simp only [Bool.not_eq_true] at hk1
          simp [hasKey, hk1]
        · simp [hasKey, hk]

theorem commitNew_get (exp : Int) (news : List (Url × Attr))
    (cache : List (Url × PyVal)) (k : Url) :
    dictGet (commitNew exp news cache) k =
      if hasKey news k then some (PyVal.int exp) else dictGet cache k := by
  induction news generalizing cache with
  | nil => simp [commitNew, hasKey]
  | cons kv rest ih =>
      obtain ⟨k1, a⟩ := kv
      rw [commitNew, ih (dictSet cache k1 (.int exp))]
      by_cases hk : k1 = k
      · subst hk
        by_cases hr : hasKey rest k1 = true
        · simp [hasKey, hr]
        · simp only [Bool.not_eq_true] at hr
          simp [hasKey, hr, dictGet_dictSet_self]
      · rw [dictGet_dictSet_ne cache k1 k (PyVal.int exp) hk]
        simp [hasKey, hk]

theorem write_data_eq (stalls : Url → Bool) (handle : Option String)
    (d : List (Url × Attr)) :
    write_data stalls handle d =
      ((d.filter (fun kv => ! stalls kv.1)).map
          (fun kv => format_message kv.1 kv.2 handle),
        d.filter (fun kv => ! stalls kv.1)) := by
  induction d with
  | nil => simp [write_data]
  | cons kv rest ih =>
      obtain ⟨url, attrs⟩ := kv
      by_cases hs : stalls url = true
      · simp [write_data, hs, List.filter, ih]
      · simp only [Bool.not_eq_true] at hs
        simp [write_data, hs, List.filter, ih]

theorem hasKey_filter_key (news : List (Url × α)) (q : Url → Bool) (k : Url) :
    hasKey (news.filter (fun kv => q kv.1)) k = (hasKey news k && q k) := by
  induction news with
  | nil => simp [hasKey]
  | cons kv rest ih =>
      obtain ⟨k1, a⟩ := kv
      by_cases hk : k1 = k
      · subst hk
        by_cases hq : q k1 = true
        · simp [List.filter, hasKey, hq]
        · simp only [Bool.not_eq_true] at hq
          simp [List.filter, hasKey, hq, ih]
      · by_cases hq : q k1 = true
        · simp [List.filter, hasKey, hq, hk, ih]
        · simp only [Bool.not_eq_true] at hq
          simp [List.filter, hasKey, hq, hk, ih]

theorem mainCore_final_no_stall (news : List (Url × Attr))
    (cache : List (Url × PyVal)) (now ttl : Int) (ci : Bool)
    (handle : Option String) (stalls : Url → Bool)
    (hstall : ∀ u, stalls u = false) :
    (mainCore news cache now ttl ci handle stalls).finalCache
      = commitNew (now + ttl) (reconcile (now + ttl) news cache).1
          (reconcile (now + ttl) news cache).2 := by
  cases ci
  · simp [mainCore, write_data_eq, hstall, List.filter_true]
  · simp [mainCore]

/-- C1: every parsed entry whose url is a key of the scrubbed cache has its
cache expiration refreshed to `now + ttl` and is excluded from the set to be
emitted; every parsed entry whose url is not in the cache stays in the
emission set, and (after the emission step, here with no write stalls) its
url carries a cache record expiring at `now + ttl` in the final cache. -/
theorem reconcile_split (news : List (Url × Attr)) (cache : List (Url × PyVal))
    (now ttl : Int) (ci : Bool) (handle : Option String) (stalls : Url → Bool)
    (hstall : ∀ u, stalls u = false) (k : Url) (a : Attr)
    (hmem : (k, a) ∈ news) :
    (hasKey cache k = true →
      hasKey (reconcile (now + ttl) news cache).1 k = false ∧
      dictGet (reconcile (now + ttl) news cache).2 k = some (PyVal.int (now + ttl)))
    ∧ (hasKey cache k = false → (k, a) ∈ (reconcile (now + ttl) news cache).1)
    ∧ dictGet (mainCore news cache now ttl ci handle stalls).finalCache k
        = some (PyVal.int (now + ttl)) := by
  have hknews : hasKey news k = true := hasKey_of_mem news k a hmem
  have hfst : hasKey (reconcile (now + ttl) news cache).1 k
      = (hasKey news k && ! hasKey cache k) := by
    rw [reconcile_fst]
    exact hasKey_filter_key news (fun u => ! hasKey cache u) k
  refine ⟨?_, ?_, ?_⟩
  · intro hc
    refine ⟨by simp [hfst, hknews, hc], ?_⟩
    rw [reconcile_snd_get]
    simp [hknews, hc]
  · intro hc
    rw [reconcile_fst]
    exact List.mem_filter.mpr ⟨hmem, by simp [hc]⟩
  · rw [mainCore_final_no_stall news cache now ttl ci handle stalls hstall]
    rw [commitNew_get]
    by_cases hc : hasKey cache k = true
    · rw [hfst]
      simp only [hknews, hc, Bool.not_true, Bool.and_false, if_false]
      rw [reconcile_snd_get]
      simp [hknews, hc]
    · simp only [Bool.not_eq_true] at hc
      rw [hfst]
      simp [hknews, hc]

/-- No entry stalls: the constant-false stall oracle. -/
def noStall : Url → Bool := fun _ => false

/-- C1 witness: with cache `{u1 ↦ 5}`, news `{u1, u2}`, `now = 10`,
`ttl = 100`: `u1` is excluded from emission and refreshed to `110`, `u2` stays
in the emission set, and both end at `110` in the final cache. -/
theorem reconcile_split_witness :
    ((hasKey [((some "u1" : Url), PyVal.int 5)] (some "u1") = true →
      hasKey (reconcile ((10 : Int) + 100)
          [((some "u1" : Url), ((some "t1" : Option String), (none : Option String))),
            ((some "u2" : Url), ((some "t2" : Option String), (none : Option String)))]
          [((some "u1" : Url), PyVal.int 5)]).1 (some "u1") = false ∧
      dictGet (reconcile ((10 : Int) + 100)
          [((some "u1" : Url), ((some "t1" : Option String), (none : Option String))),
            ((some "u2" : Url), ((some "t2" : Option String), (none : Option String)))]
          [((some "u1" : Url), PyVal.int 5)]).2 (some "u1")
        = some (PyVal.int ((10 : Int) + 100)))
    ∧ (hasKey [((some "u1" : Url), PyVal.int 5)] (some "u1") = false →
      ((some "u1" : Url), ((some "t1" : Option String), (none : Option String))) ∈
        (reconcile ((10 : Int) + 100)
          [((some "u1" : Url), ((some "t1" : Option String), (none : Option String))),
            ((some "u2" : Url), ((some "t2" : Option String), (none : Option String)))]
          [((some "u1" : Url), PyVal.int 5)]).1)
    ∧ dictGet (mainCore
          [((some "u1" : Url), ((some "t1" : Option String), (none : Option String))),
            ((some "u2" : Url), ((some "t2" : Option String), (none : Option String)))]
          [((some "u1" : Url), PyVal.int 5)] 10 100 false none noStall).finalCache
        (some "u1") = some (PyVal.int ((10 : Int) + 100))) :=
  reconcile_split
    [((some "u1" : Url), ((some "t1" : Option String), (none : Option String))),
      ((some "u2" : Url), ((some "t2" : Option String), (none : Option String)))]
    [((some "u1" : Url), PyVal.int 5)] 10 100 false none noStall
    (fun _ => rfl) (some "u1")
    ((some "t1" : Option String), (none : Option String)) (by decide)

/-- Every entry stalls: the constant-true stall oracle. -/
def stallAll : Url → Bool := fun _ => true

/-- C5 counterexample: the bootstrap gate does affect cache contents.  With
one new entry `u` whose output write stalls, the run with the flag caches
`u ↦ now + ttl` (no write is attempted), while the run without the flag pops
`u` from `news` inside `write_data` and therefore never caches it: the two
final caches differ. -/
theorem bootstrap_cache_cex :
    (mainCore [((some "u" : Url), ((some "t" : Option String), (none : Option String)))]
        [] 0 100 true none stallAll).finalCache
      ≠ (mainCore [((some "u" : Url), ((some "t" : Option String), (none : Option String)))]
        [] 0 100 false none stallAll).finalCache := by
  decide

/-- C5 amended: with the bootstrap flag set nothing is written, and every new
entry's url is cached with expiration `now + ttl`; the final cache equals the
one produced without the flag provided no output write stalls (a stall in the
flag-less run removes that url from the cache update, so the gate is
cache-neutral only on stall-free runs). -/
theorem bootstrap_gate (news : List (Url × Attr)) (cache : List (Url × PyVal))
    (now ttl : Int) (handle : Option String) (stalls : Url → Bool) (k : Url)
    (a : Attr) (hstall : ∀ u, stalls u = false) (hmem : (k, a) ∈ news)
    (hnew : hasKey cache k = false) :
    (mainCore news cache now ttl true handle stalls).written = []
    ∧ dictGet (mainCore news cache now ttl true handle stalls).finalCache k
        = some (PyVal.int (now + ttl))
    ∧ (mainCore news cache now ttl true handle stalls).finalCache
        = (mainCore news cache now ttl false handle stalls).finalCache := by
  have hknews : hasKey news k = true := hasKey_of_mem news k a hmem
  refine ⟨rfl, ?_, ?_⟩
  · rw [mainCore_final_no_stall news cache now ttl true handle stalls hstall]
    rw [commitNew_get, reconcile_fst,
      hasKey_filter_key news (fun u => ! hasKey cache u) k]
    simp [hknews, hnew]
  · rw [mainCore_final_no_stall news cache now ttl true handle stalls hstall]
    rw [mainCore_final_no_stall news cache now ttl false handle stalls hstall]

/-- C5 amended witness: one new entry `u3`, `now = 7`, `ttl = 50`, no stalls:
the bootstrap run writes nothing, caches `u3 ↦ 57`, and its cache equals the
flag-less run's. -/
theorem bootstrap_gate_witness :
    (mainCore [((some "u3" : Url), ((some "t" : Option String), (none : Option String)))]
        [] 7 50 true none noStall).written = []
    ∧ dictGet (mainCore
          [((some "u3" : Url), ((some "t" : Option String), (none : Option String)))]
          [] 7 50 true none noStall).finalCache (some "u3")
        = some (PyVal.int ((7 : Int) + 50))
    ∧ (mainCore [((some "u3" : Url), ((some "t" : Option String), (none : Option String)))]
          [] 7 50 true none noStall).finalCache
        = (mainCore [((some "u3" : Url), ((some "t" : Option String), (none : Option String)))]
          [] 7 50 false none noStall).finalCache :=
  bootstrap_gate
    [((some "u3" : Url), ((some "t" : Option String), (none : Option String)))]
    [] 7 50 none noStall (some "u3")
    ((some "t" : Option String), (none : Option String))
    (fun _ => rfl) (by decide) (by rfl)

/-- C6 counterexample: one new entry `u` whose write stalls past the timeout
(`stallAll`): contrary to the claim, its url gets no cache record in the
persisted cache — `write_data` pops the stalled entry from the shared `news`
dict before the cache-commit loop runs over it. -/
theorem stall_cache_cex :
    dictGet (mainCore [((some "u" : Url), ((some "t" : Option String), (none : Option String)))]
        [] 0 100 false none stallAll).finalCache (some "u")
      ≠ some (PyVal.int (0 + 100)) := by
  decide

/-- C6 amended: a stalled entry is dropped from emission for this run only —
the run continues, the written lines are exactly those of the non-stalled
surviving entries — but, contrary to the claim, the stalled new entry's url
receives no cache record (it will be treated as new again next run); every
entry that is known or does not stall still ends at `now + ttl`. -/
theorem stall_drop (news : List (Url × Attr)) (cache : List (Url × PyVal))
    (now ttl : Int) (handle : Option String) (stalls : Url → Bool)
    (k k' : Url) (a a' : Attr) (hmem : (k, a) ∈ news) (hst : stalls k = true)
    (hnew : hasKey cache k = false) (hmem' : (k', a') ∈ news)
    (hok : hasKey cache k' = true ∨ stalls k' = false) :
    (mainCore news cache now ttl false handle stalls).written
      = ((reconcile (now + ttl) news cache).1.filter (fun kv => ! stalls kv.1)).map
          (fun kv => format_message kv.1 kv.2 handle)
    ∧ hasKey (write_data stalls handle (reconcile (now + ttl) news cache).1).2 k = false
    ∧ dictGet (mainCore news cache now ttl false handle stalls).finalCache k = none
    ∧ dictGet (mainCore news cache now ttl false handle stalls).finalCache k'
        = some (PyVal.int (now + ttl)) := by
  have hknews : hasKey news k = true := hasKey_of_mem news k a hmem
  have hknews' : hasKey news k' = true := hasKey_of_mem news k' a' hmem'
  have hfin : (mainCore news cache now ttl false handle stalls).finalCache
      = commitNew (now + ttl)
          ((reconcile (now + ttl) news cache).1.filter (fun kv => ! stalls kv.1))
          (reconcile (now + ttl) news cache).2 := by
    simp [mainCore, write_data_eq]
  refine ⟨by simp [mainCore, write_data_eq], ?_, ?_, ?_⟩
  · rw [write_data_eq]
    rw [hasKey_filter_key (reconcile (now + ttl) news cache).1 (fun u => ! stalls u) k]
    simp [hst]
  · rw [hfin, commitNew_get]
    rw [hasKey_filter_key (reconcile (now + ttl) news cache).1 (fun u => ! stalls u) k]
    simp only [hst, Bool.not_true, Bool.and_false, if_false]
    rw [reconcile_snd_get]
    simp only [hnew, Bool.and_false, if_false]
    exact dictGet_eq_none_of_not_hasKey cache k hnew
  · rw [hfin, commitNew_get]
    rw [hasKey_filter_key (reconcile (now + ttl) news cache).1 (fun u => ! stalls u) k']
    rw [reconcile_fst, hasKey_filter_key news (fun u => ! hasKey cache u) k']
    rcases hok with hc | hs
    · simp only [hknews', hc, Bool.not_true, Bool.and_false, Bool.false_and, if_false]
      rw [reconcile_snd_get]
      simp [hknews', hc]
    · by_cases hc : hasKey cache k' = true
      · simp only [hknews', hc, Bool.not_true, Bool.and_false, Bool.false_and, if_false]
        rw [reconcile_snd_get]
        simp [hknews', hc]
      · simp only [Bool.not_eq_true] at hc
        simp [hknews', hc, hs]

/-- Stall oracle that stalls only the url `u`. -/
def stallU : Url → Bool := fun k => decide (k = some "u")

/-- C6 amended witness: entries `u` (stalls) and `v` (does not), empty cache,
`now = 0`, `ttl = 100`: the only written line is `v`'s, `u` is popped and
absent from the final cache, and `v` is cached at `100`. -/
theorem stall_drop_witness :
    (mainCore [((some "u" : Url), ((some "t" : Option String), (none : Option String))),
        ((some "v" : Url), ((some "s" : Option String), (none : Option String)))]
        [] 0 100 false none stallU).written
      = ((reconcile ((0 : Int) + 100)
          [((some "u" : Url), ((some "t" : Option String), (none : Option String))),
            ((some "v" : Url), ((some "s" : Option String), (none : Option String)))]
          []).1.filter (fun kv => ! stallU kv.1)).map
          (fun kv => format_message kv.1 kv.2 none)
    ∧ hasKey (write_data stallU none (reconcile ((0 : Int) + 100)
          [((some "u" : Url), ((some "t" : Option String), (none : Option String))),
            ((some "v" : Url), ((some "s" : Option String), (none : Option String)))]
          []).1).2 (some "u") = false
    ∧ dictGet (mainCore [((some "u" : Url), ((some "t" : Option String), (none : Option String))),
          ((some "v" : Url), ((some "s" : Option String), (none : Option String)))]
          [] 0 100 false none stallU).finalCache (some "u") = none
    ∧ dictGet (mainCore [((some "u" : Url), ((some "t" : Option String), (none : Option String))),
          ((some "v" : Url), ((some "s" : Option String), (none : Option String)))]
          [] 0 100 false none stallU).finalCache (some "v")
        = some (PyVal.int ((0 : Int) + 100)) :=
  stall_drop
    [((some "u" : Url), ((some "t" : Option String), (none : Option String))),
      ((some "v" : Url), ((some "s" : Option String), (none : Option String)))]
    [] 0 100 none stallU (some "u") (some "v")
    ((some "t" : Option String), (none : Option String))
    ((some "s" : Option String), (none : Option String))
    (by decide) (by decide) (by rfl) (by decide) (Or.inr (by decide))

/-- The persistent store: maps a path to the pickled mapping it holds, if
any.  `pickle.dump`/`pickle.load` round-trip a dict exactly, so a file's
content is modelled as the mapping itself. -/
abbrev FileStore := String → Option (List (Url × PyVal))

/-- `read_cache` (lines 169-187): a falsy path (unset or empty) yields an
empty dict; a missing file logs a warning and yields an empty dict; otherwise
the pickled mapping is loaded. -/
def read_cache (fs : FileStore) : Option String → List (Url × PyVal)
  | none => []
  | some p =>
      if p = "" then []
      else
        match fs p with
        | none => []
        | some c => c

/-- `write_cache` (lines 217-227): a falsy path is a no-op; otherwise the
mapping is pickled to the path, overwriting prior contents. -/
def write_cache (fs : FileStore) (data : List (Url × PyVal)) :
    Option String → FileStore
  | none => fs
  | some p =>
      if p = "" then fs
      else fun q => if q = p then some data else fs q

/-- C7: loading after saving a non-empty mapping at a valid (non-empty) path
returns the same mapping; loading with an unset or empty path returns the
empty mapping; saving with an unset or empty path leaves the store untouched. -/
theorem cache_roundtrip (fs fs2 : FileStore) (c : List (Url × PyVal))
    (p : String) (hp : p ≠ "") (_hc : c ≠ []) :
    read_cache (write_cache fs c (some p)) (some p) = c
    ∧ read_cache fs2 none = []
    ∧ read_cache fs2 (some "") = []
    ∧ write_cache fs c none = fs
    ∧ write_cache fs c (some "") = fs := by
  refine ⟨?_, rfl, by simp [read_cache], rfl, by simp [write_cache]⟩
  simp [read_cache, write_cache, hp]

/-- An empty file store. -/
def emptyStore : FileStore := fun _ => none

/-- C7 witness: saving `{a ↦ 5}` at path `"f"` into the empty store and
loading it back returns `{a ↦ 5}`; loads and saves with unset or empty paths
behave as stated. -/
theorem cache_roundtrip_witness :
    read_cache (write_cache emptyStore [((some "a" : Url), PyVal.int 5)] (some "f"))
        (some "f") = [((some "a" : Url), PyVal.int 5)]
    ∧ read_cache emptyStore none = []
    ∧ read_cache emptyStore (some "") = []
    ∧ write_cache emptyStore [((some "a" : Url), PyVal.int 5)] none = emptyStore
    ∧ write_cache emptyStore [((some "a" : Url), PyVal.int 5)] (some "") = emptyStore :=
  cache_roundtrip emptyStore emptyStore [((some "a" : Url), PyVal.int 5)] "f"
    (by decide) (by decide)

/-- A feedparser entry as consumed by `parse_news`: its `link`, `title` and
`category` fields, each possibly absent (`entry.pop(field, None)`). -/
structure Entry where
  link : Option String
  title : Option String
  category : Option String
deriving DecidableEq

/-- Python `not s` on a string literal. -/
def pyNotStr (s : String) : Bool := decide (s = "")

/-- `parse_news` (lines 153-166): for each feed entry, pop `link` and
`title`; the guard `if not 'link' and not 'title': continue` tests the
truthiness of the string literals, not of the popped values; a surviving
entry is recorded in `news` keyed by its (possibly `None`) link. -/
def parse_news (entries : List Entry) (news : List (Url × Attr)) :
    List (Url × Attr) :=
  match entries with
  | [] => news
  | e :: rest =>
      if pyNotStr "link" && pyNotStr "title" then parse_news rest news
      else parse_news rest (dictSet news e.link (e.title, e.category))

theorem hasKey_dictSet_self (d : List (Url × α)) (k : Url) (v : α) :
    hasKey (dictSet d k v) k = true := by
  rw [hasKey_iff_exists]
  induction d with
  | nil => exact ⟨v, by simp [dictSet]⟩
  | cons kv rest ih =>
      obtain ⟨k1, v1⟩ := kv
      by_cases hk : k1 = k
      · subst hk
        exact ⟨v, by simp [dictSet]⟩
      · obtain ⟨w, hw⟩ := ih
        exact ⟨w, by simp [dictSet, hk, hw]⟩

theorem hasKey_dictSet (d : List (Url × α)) (k : Url) (v : α) (k' : Url) :
    hasKey (dictSet d k v) k' = (hasKey d k' || decide (k = k')) := by
  induction d with
  | nil =>
      by_cases hk : k = k'
      · simp [dictSet, hasKey, hk]
      · simp [dictSet, hasKey, hk]
  | cons kv rest ih =>
      obtain ⟨k1, v1⟩ := kv
      by_cases hk : k1 = k
      · subst hk
        by_cases hk' : k1 = k'
        · simp [dictSet, hasKey, hk']
        · simp [dictSet, hasKey, hk', ih]
      · by_cases hk' : k1 = k'
        · subst hk'
          simp [dictSet, hasKey, hk]
        · simp [dictSet, hasKey, hk, hk', ih]

theorem hasKey_parse_news_mono (entries : List Entry)
    (news : List (Url × Attr)) (k : Url) (h : hasKey news k = true) :
    hasKey (parse_news entries news) k = true := by
  induction entries generalizing news with
  | nil => exact h
  | cons e rest ih =>
      rw [parse_news]
      simp only [pyNotStr, decide_eq_true_eq]
      rw [if_neg (by simp)]
      apply ih
      rw [hasKey_dictSet]
      simp [h]

theorem parse_news_eq_foldl (entries : List Entry) (news : List (Url × Attr)) :
    parse_news entries news
      = entries.foldl (fun d en => dictSet d en.link (en.title, en.category)) news := by
  induction entries generalizing news with
  | nil => rfl
  | cons e1 rest ih =>
      rw [parse_news]
      simp only [pyNotStr, decide_eq_true_eq]
      rw [if_neg (by simp)]
      rw [List.foldl_cons]
      exact ih (dictSet news e1.link (e1.title, e1.category))

/-- C8: the no-link/no-title guard in `parse_news` is constant-false (it
tests the non-empty string literals, never the entry), so every feed entry —
including one lacking both link and title — is recorded in `news` under its
(possibly absent) link key; no entry is skipped by this check. -/
theorem parse_news_never_skips (entries : List Entry)
    (news : List (Url × Attr)) (e : Entry) (he : e ∈ entries) :
    (pyNotStr "link" && pyNotStr "title") = false
    ∧ parse_news entries news
        = entries.foldl (fun d en => dictSet d en.link (en.title, en.category)) news
    ∧ hasKey (parse_news entries news) e.link = true := by
  refine ⟨by decide, parse_news_eq_foldl entries news, ?_⟩
  induction entries generalizing news with
  | nil => simp at he
  | cons e1 rest ih =>
      rw [parse_news]
      simp only [pyNotStr, decide_eq_true_eq]
      rw [if_neg (by simp)]
      rcases List.mem_cons.mp he with h1 | h1
      · subst h1
        exact hasKey_parse_news_mono rest _ e.link
          (hasKey_dictSet_self news e.link (e.title, e.category))
      · exact ih (dictSet news e1.link (e1.title, e1.category)) h1

/-- C8 witness: an entry with neither link nor title is still recorded, under
the `None` key. -/
theorem parse_news_never_skips_witness :
    (pyNotStr "link" && pyNotStr "title") = false
    ∧ parse_news [Entry.mk none none none] []
        = [Entry.mk none none none].foldl
            (fun d en => dictSet d en.link (en.title, en.category)) []
    ∧ hasKey (parse_news [Entry.mk none none none] [])
        (Entry.mk none none none).link = true :=
  parse_news_never_skips [Entry.mk none none none] [] (Entry.mk none none none)
    (by decide)

/-- C9: with a configured (truthy) handle the emitted line is
`[<tag>] <title> | <url>\n`, where the tag is `<handle>-<category>` for a
present (truthy) category and `<handle>` otherwise; with no handle the line
is `<url>\n`. -/
theorem format_message_spec (url title cat h : String) (hh : h ≠ "")
    (hc : cat ≠ "") :
    format_message (some url) ((some title : Option String), (some cat : Option String))
        (some h) = "[" ++ (h ++ "-" ++ cat) ++ "] " ++ title ++ " | " ++ url ++ "\n"
    ∧ format_message (some url) ((some title : Option String), (none : Option String))
        (some h) = "[" ++ h ++ "] " ++ title ++ " | " ++ url ++ "\n"
    ∧ format_message (some url) ((some title : Option String), (some cat : Option String))
        none = url ++ "\n" := by
  refine ⟨?_, ?_, ?_⟩ <;> simp [format_message, truthyStr, pyStrOf, hh, hc]

/-- C9 witness: handle `bot`, category `cat`: the three line shapes at
concrete inputs. -/
theorem format_message_spec_witness :
    format_message (some "http://a") ((some "Title A" : Option String),
        (some "cat" : Option String)) (some "bot")
      = "[" ++ ("bot" ++ "-" ++ "cat") ++ "] " ++ "Title A" ++ " | " ++ "http://a" ++ "\n"
    ∧ format_message (some "http://a") ((some "Title A" : Option String),
        (none : Option String)) (some "bot")
      = "[" ++ "bot" ++ "] " ++ "Title A" ++ " | " ++ "http://a" ++ "\n"
    ∧ format_message (some "http://a") ((some "Title A" : Option String),
        (some "cat" : Option String)) none
      = "http://a" ++ "\n" :=
  format_message_spec "http://a" "Title A" "cat" "bot" (by decide) (by decide)

/-- C10: an empty-string category is falsy, so it is formatted exactly like
an absent category — the tag is the bare handle, with no trailing dash. -/
theorem format_message_empty_category (url title h : String) (hh : h ≠ "") :
    format_message (some url) ((some title : Option String), (some "" : Option String))
        (some h) = "[" ++ h ++ "] " ++ title ++ " | " ++ url ++ "\n" := by
  simp [format_message, truthyStr, pyStrOf, hh]

/-- C10 witness: handle `bot` with category `""` yields the same line as no
category. -/
theorem format_message_empty_category_witness :
    format_message (some "http://a") ((some "Title A" : Option String),
        (some "" : Option String)) (some "bot")
      = "[" ++ "bot" ++ "] " ++ "Title A" ++ " | " ++ "http://a" ++ "\n" :=
  format_message_empty_category "http://a" "Title A" "bot" (by decide)
